import Mathlib

/-!
Shallow embedding of `src/contracts/ArcadeManager.sol` (contract `ArcadeManager`,
Solidity ^0.8, OpenZeppelin `Ownable` + `ReentrancyGuard`) together with the
OpenZeppelin ERC20 token semantics inherited by `src/contracts/MockBullToken.sol`.

Modelling conventions:
* `uint256` values are `Nat` with explicit checked arithmetic (`uadd`, `usub`,
  `umul`) that aborts instead of wrapping, as Solidity >= 0.8 does; `UINT_MAX`
  is `2 ^ 256 - 1`.
* An EVM revert is modelled by `Except`: an `.error` outcome carries no state,
  so every storage write made before the revert is discarded (all-or-nothing).
* Addresses are `Nat`, with `0` as the null address.
* The `nonReentrant` modifier runs its guard check and acquisition before the
  function body, and releases the guard after the body.
-/

namespace Arcade

/-- Account identifiers; `0` stands for the null address. -/
abbrev Address := Nat

/-- Largest `uint256` value. -/
def UINT_MAX : Nat := 2 ^ 256 - 1

/-- The abort causes of the contract, named as in the specification taxonomy.
`ArithmeticPanic` is the Solidity >= 0.8 checked-arithmetic panic. -/
inductive ArcadeError where
  | InvalidAmount
  | InvalidAddress
  | InsufficientCredits
  | InsufficientReserve
  | TooSmall
  | AccessDenied
  | TransferFailed
  | ReentrancyDetected
  | ArithmeticPanic
deriving DecidableEq, Repr

/-- The events declared by `ArcadeManager`. -/
inductive Event where
  | Deposit (user : Address) (bullAmount creditAmount : Nat)
  | CreditsSpent (user : Address) (amount : Nat)
  | WinningsAwarded (user : Address) (amount : Nat)
  | Withdrawal (user : Address) (creditAmount bullAmount : Nat)
deriving DecidableEq, Repr

/-- Checked `uint256` addition: reverts (panics) on overflow instead of wrapping. -/
def uadd (a b : Nat) : Except ArcadeError Nat :=
  if a + b ≤ UINT_MAX then .ok (a + b) else .error .ArithmeticPanic

/-- Checked `uint256` subtraction: reverts (panics) on underflow instead of wrapping. -/
def usub (a b : Nat) : Except ArcadeError Nat :=
  if b ≤ a then .ok (a - b) else .error .ArithmeticPanic

/-- Checked `uint256` multiplication: reverts (panics) on overflow instead of wrapping. -/
def umul (a b : Nat) : Except ArcadeError Nat :=
  if a * b ≤ UINT_MAX then .ok (a * b) else .error .ArithmeticPanic

/-- Pointwise update of a storage mapping. -/
def updateMap (m : Address → Nat) (k : Address) (v : Nat) : Address → Nat :=
  fun a => if a = k then v else m a

/-- Storage of the BULL token contract (an OpenZeppelin ERC20, which
`MockBullToken` inherits unchanged). -/
structure ERC20 where
  balances : Address → Nat
  allowances : Address → Address → Nat

/-- ERC20 `balanceOf`: pure read. -/
def ERC20.balanceOf (t : ERC20) (a : Address) : Nat :=
  t.balances a

/-- OpenZeppelin ERC20 internal `_transfer`: requires nonzero endpoints and a
sufficient source balance, then debits `fromA` and credits `toA` (in that
order, so a self-transfer is a no-op). `none` models revert. -/
def ERC20.doTransfer (t : ERC20) (fromA toA : Address) (amount : Nat) : Option ERC20 :=
  if fromA = 0 then none
  else if toA = 0 then none
  else if t.balances fromA < amount then none
  else
    let b1 := updateMap t.balances fromA (t.balances fromA - amount)
    some { t with balances := updateMap b1 toA (b1 toA + amount) }

/-- OpenZeppelin ERC20 `transferFrom` as invoked with `spender` as the caller of
the token: spend the allowance of `fromA` granted to `spender` (the sentinel
`UINT_MAX` allowance is not decreased), then run the internal transfer. -/
def ERC20.transferFrom (t : ERC20) (spender fromA toA : Address) (amount : Nat) :
    Option ERC20 :=
  let allow := t.allowances fromA spender
  if allow = UINT_MAX then t.doTransfer fromA toA amount
  else if allow < amount then none
  else
    ERC20.doTransfer
      { t with allowances := fun o sp =>
          if o = fromA ∧ sp = spender then allow - amount else t.allowances o sp }
      fromA toA amount

/-- The full state visible to the `ArcadeManager` contract: its own storage
(`userCredits`, `owner`, the `bullToken` reference and the transient reentrancy
flag `locked`) plus the storage of the token contract it calls into. -/
structure ArcadeState where
  token : ERC20
  selfAddr : Address
  bullToken : Address
  userCredits : Address → Nat
  owner : Address
  locked : Bool

/-- `CREDIT_RATE` constant of `ArcadeManager`: 1 BULL = 100 credits. -/
def CREDIT_RATE : Nat := 100

/-- `getCredits` of `ArcadeManager`: pure read of the credit balance. -/
def getCredits (s : ArcadeState) (user : Address) : Nat :=
  s.userCredits user

/-- `deposit` of `ArcadeManager`. The `nonReentrant` guard is checked and
acquired before the body; the body requires a positive amount, pulls the
tokens via `transferFrom(msg.sender, address(this), bullAmount)`, credits
`bullAmount * CREDIT_RATE` and emits `Deposit`. -/
def deposit (s : ArcadeState) (caller : Address) (bullAmount : Nat) :
    Except ArcadeError (ArcadeState × List Event) :=
  if s.locked then .error .ReentrancyDetected else
  let s1 := { s with locked := true }
  if ¬ bullAmount > 0 then .error .InvalidAmount else
  match s1.token.transferFrom s1.selfAddr caller s1.selfAddr bullAmount with
  | none => .error .TransferFailed
  | some t =>
    match umul bullAmount CREDIT_RATE with
    | .error e => .error e
    | .ok creditAmount =>
      match uadd (s1.userCredits caller) creditAmount with
      | .error e => .error e
      | .ok nb =>
        .ok ({ s1 with token := t,
                       userCredits := updateMap s1.userCredits caller nb,
                       locked := false },
             [.Deposit caller bullAmount creditAmount])

/-- `spendCredits` of `ArcadeManager`: guarded debit of the caller, no external
call. -/
def spendCredits (s : ArcadeState) (caller : Address) (amount : Nat) :
    Except ArcadeError (ArcadeState × List Event) :=
  if s.locked then .error .ReentrancyDetected else
  let s1 := { s with locked := true }
  if ¬ amount > 0 then .error .InvalidAmount else
  if ¬ s1.userCredits caller ≥ amount then .error .InsufficientCredits else
  match usub (s1.userCredits caller) amount with
  | .error e => .error e
  | .ok nb =>
    .ok ({ s1 with userCredits := updateMap s1.userCredits caller nb,
                   locked := false },
         [.CreditsSpent caller amount])

/-- `awardWinnings` of `ArcadeManager`: `onlyOwner`, not reentrancy-guarded;
credits `amount` to `player`. -/
def awardWinnings (s : ArcadeState) (caller player : Address) (amount : Nat) :
    Except ArcadeError (ArcadeState × List Event) :=
  if ¬ caller = s.owner then .error .AccessDenied else
  if player = 0 then .error .InvalidAddress else
  if ¬ amount > 0 then .error .InvalidAmount else
  match uadd (s.userCredits player) amount with
  | .error e => .error e
  | .ok nb =>
    .ok ({ s with userCredits := updateMap s.userCredits player nb },
         [.WinningsAwarded player amount])

/-- `withdraw` of `ArcadeManager`, parameterised over the behaviour of the two
external token calls. The token contract is externally-controlled code, so its
`transfer` entry point is modelled as an arbitrary transformer of the whole
state (it may re-enter the arcade contract before returning); `none` models a
failed transfer. `extBalanceOf` models the external `balanceOf` view call. -/
def withdrawGen (extTransfer : ArcadeState → Address → Nat → Option ArcadeState)
    (extBalanceOf : ArcadeState → Address → Nat)
    (s : ArcadeState) (caller : Address) (creditAmount : Nat) :
    Except ArcadeError (ArcadeState × List Event) :=
  if s.locked then .error .ReentrancyDetected else
  let s1 := { s with locked := true }
  if ¬ creditAmount > 0 then .error .InvalidAmount else
  if ¬ s1.userCredits caller ≥ creditAmount then .error .InsufficientCredits else
  let bullAmount := creditAmount / CREDIT_RATE
  if ¬ bullAmount > 0 then .error .TooSmall else
  if ¬ extBalanceOf s1 s1.selfAddr ≥ bullAmount then .error .InsufficientReserve else
  match usub (s1.userCredits caller) creditAmount with
  | .error e => .error e
  | .ok nb =>
    let s2 := { s1 with userCredits := updateMap s1.userCredits caller nb }
    match extTransfer s2 caller bullAmount with
    | none => .error .TransferFailed
    | some s3 =>
      .ok ({ s3 with locked := false },
           [.Withdrawal caller creditAmount bullAmount])

/-- The concrete token `transfer(to, amount)` call made by `withdraw`: it runs
the ERC20 transfer from the arcade contract address on the embedded token
storage and touches nothing else. -/
def tokenTransfer (s : ArcadeState) (toA : Address) (amount : Nat) :
    Option ArcadeState :=
  match s.token.doTransfer s.selfAddr toA amount with
  | none => none
  | some t => some { s with token := t }

/-- The concrete token `balanceOf` call made by `withdraw`. -/
def tokenBalanceOf (s : ArcadeState) (a : Address) : Nat :=
  s.token.balanceOf a

/-- `withdraw` of `ArcadeManager` with the concrete (well-behaved) token. -/
def withdraw (s : ArcadeState) (caller : Address) (creditAmount : Nat) :
    Except ArcadeError (ArcadeState × List Event) :=
  withdrawGen tokenTransfer tokenBalanceOf s caller creditAmount

/-- The state a subsequent operation observes after a call: on success the new
state, on revert the unchanged pre-state (EVM rollback semantics). -/
def execState (r : Except ArcadeError (ArcadeState × List Event))
    (s : ArcadeState) : ArcadeState :=
  match r with
  | .ok p => p.1
  | .error _ => s

/-- An external transfer capability that always reports failure; used to
exercise the failure path of `withdrawGen`. -/
def failTransfer : ArcadeState → Address → Nat → Option ArcadeState :=
  fun _ _ _ => none

/-- Token storage of a concrete deployment: account 1 holds 1000 BULL with a
1000 allowance to the arcade contract (address 2), account 4 holds 30 BULL
with a 30 allowance, and the arcade contract itself holds 50 BULL. -/
def Wtoken : ERC20 :=
  { balances := fun a => if a = 1 then 1000 else if a = 2 then 50 else if a = 4 then 30 else 0,
    allowances := fun o sp =>
      if o = 1 ∧ sp = 2 then 1000 else if o = 4 ∧ sp = 2 then 30 else 0 }

/-- A concrete arcade deployment: the contract lives at address 2, refers to
the BULL token at address 7, is operated by account 3, and account 1 holds
250 credits. -/
def W0 : ArcadeState :=
  { token := Wtoken, selfAddr := 2, bullToken := 7,
    userCredits := fun a => if a = 1 then 250 else 0,
    owner := 3, locked := false }

/-- `W0` with the reentrancy guard held, as observed by a reentrant call. -/
def WL : ArcadeState :=
  { W0 with locked := true }

/-! ## Basic lemmas about the storage primitives -/

theorem updateMap_self (m : Address → Nat) (k : Address) (v : Nat) :
    updateMap m k v k = v := by
  simp [updateMap]

theorem updateMap_ne (m : Address → Nat) (k : Address) (v : Nat) {a : Address}
    (h : a ≠ k) : updateMap m k v a = m a := by
  simp [updateMap, h]

theorem usub_of_le {a b : Nat} (h : b ≤ a) : usub a b = .ok (a - b) := by
  simp [usub, h]

theorem uadd_of_le {a b : Nat} (h : a + b ≤ UINT_MAX) : uadd a b = .ok (a + b) := by
  simp [uadd, h]

theorem umul_of_le {a b : Nat} (h : a * b ≤ UINT_MAX) : umul a b = .ok (a * b) := by
  simp [umul, h]

theorem usub_ok {a b n : Nat} (h : usub a b = .ok n) : b ≤ a ∧ n = a - b := by
  unfold usub at h
  split at h
  · exact ⟨by assumption, by injection h with h; exact h.symm⟩
  · cases h

theorem uadd_ok {a b n : Nat} (h : uadd a b = .ok n) :
    a + b ≤ UINT_MAX ∧ n = a + b := by
  unfold uadd at h
  split at h
  · exact ⟨by assumption, by injection h with h; exact h.symm⟩
  · cases h

theorem umul_ok {a b n : Nat} (h : umul a b = .ok n) :
    a * b ≤ UINT_MAX ∧ n = a * b := by
  unfold umul at h
  split at h
  · exact ⟨by assumption, by injection h with h; exact h.symm⟩
  · cases h

/-! ## Lemmas about the ERC20 token model -/

theorem ERC20.doTransfer_inv {t t' : ERC20} {fromA toA : Address} {amount : Nat}
    (h : t.doTransfer fromA toA amount = some t') :
    fromA ≠ 0 ∧ toA ≠ 0 ∧ amount ≤ t.balances fromA ∧
    t'.allowances = t.allowances ∧
    (∀ a, a ≠ fromA → a ≠ toA → t'.balances a = t.balances a) ∧
    (fromA ≠ toA →
      t'.balances fromA = t.balances fromA - amount ∧
      t'.balances toA = t.balances toA + amount) := by
  simp only [ERC20.doTransfer] at h
  split at h
  · cases h
  next hf =>
  split at h
  · cases h
  next ht =>
  split at h
  · cases h
  next hb =>
  injection h with h
  subst h
  refine ⟨hf, ht, Nat.not_lt.mp hb, rfl, ?_, ?_⟩
  · intro a ha1 ha2
    simp [updateMap, ha1, ha2]
  · intro hne
    constructor
    · simp [updateMap, hne]
    · simp [updateMap, Ne.symm hne]

theorem ERC20.doTransfer_some {t : ERC20} {fromA toA : Address} {amount : Nat}
    (hf : fromA ≠ 0) (ht : toA ≠ 0) (hb : amount ≤ t.balances fromA) :
    ∃ t', t.doTransfer fromA toA amount = some t' := by
  simp only [ERC20.doTransfer, if_neg hf, if_neg ht, if_neg (Nat.not_lt.mpr hb)]
  exact ⟨_, rfl⟩

theorem ERC20.transferFrom_inv {t t' : ERC20} {spender fromA toA : Address}
    {amount : Nat} (h : t.transferFrom spender fromA toA amount = some t') :
    fromA ≠ 0 ∧ toA ≠ 0 ∧ amount ≤ t.balances fromA ∧
    (∀ a, a ≠ fromA → a ≠ toA → t'.balances a = t.balances a) ∧
    (fromA ≠ toA →
      t'.balances fromA = t.balances fromA - amount ∧
      t'.balances toA = t.balances toA + amount) := by
  simp only [ERC20.transferFrom] at h
  split at h
  · have hd := ERC20.doTransfer_inv h
    exact ⟨hd.1, hd.2.1, hd.2.2.1, hd.2.2.2.2.1, hd.2.2.2.2.2⟩
  split at h
  · cases h
  · have hd := ERC20.doTransfer_inv h
    exact ⟨hd.1, hd.2.1, hd.2.2.1, hd.2.2.2.2.1, hd.2.2.2.2.2⟩

theorem ERC20.transferFrom_some {t : ERC20} {spender fromA toA : Address}
    {amount : Nat} (hf : fromA ≠ 0) (ht : toA ≠ 0)
    (hb : amount ≤ t.balances fromA)
    (hal : amount ≤ t.allowances fromA spender) :
    ∃ t', t.transferFrom spender fromA toA amount = some t' := by
  by_cases hA : t.allowances fromA spender = UINT_MAX
  · simp only [ERC20.transferFrom, if_pos hA]
    exact ERC20.doTransfer_some hf ht hb
  · simp only [ERC20.transferFrom, if_neg hA, if_neg (Nat.not_lt.mpr hal)]
    exact ERC20.doTransfer_some hf ht hb


/-! ## Inversion lemmas: what a successful operation implies -/

theorem tokenTransfer_inv {s s' : ArcadeState} {toA : Address} {amount : Nat}
    (h : tokenTransfer s toA amount = some s') :
    ∃ t', s.token.doTransfer s.selfAddr toA amount = some t' ∧
      s' = { s with token := t' } := by
  unfold tokenTransfer at h
  split at h
  · cases h
  next t ht =>
  refine ⟨t, ht, ?_⟩
  injection h with h
  exact h.symm

theorem deposit_inv {s s' : ArcadeState} {caller : Address} {bullAmount : Nat}
    {evs : List Event}
    (h : deposit s caller bullAmount = .ok (s', evs)) :
    s.locked = false ∧ 0 < bullAmount ∧
    bullAmount * CREDIT_RATE ≤ UINT_MAX ∧
    (∃ t', s.token.transferFrom s.selfAddr caller s.selfAddr bullAmount = some t' ∧
      s'.token = t') ∧
    s'.userCredits caller = s.userCredits caller + bullAmount * CREDIT_RATE ∧
    (∀ b, b ≠ caller → s'.userCredits b = s.userCredits b) ∧
    s'.selfAddr = s.selfAddr ∧ s'.bullToken = s.bullToken ∧
    s'.owner = s.owner ∧ s'.locked = false ∧
    evs = [.Deposit caller bullAmount (bullAmount * CREDIT_RATE)] := by
  simp only [deposit] at h
  split at h
  · cases h
  next hl =>
  split at h
  · cases h
  next ha =>
  split at h
  · cases h
  next t ht =>
  split at h
  · cases h
  next ca hm =>
  split at h
  · cases h
  next nb hadd =>
  obtain ⟨hmle, hmeq⟩ := umul_ok hm
  subst hmeq
  obtain ⟨hale, haeq⟩ := uadd_ok hadd
  subst haeq
  rw [Except.ok.injEq, Prod.mk.injEq] at h
  obtain ⟨h1, h2⟩ := h
  subst h1
  subst h2
  have hl' : s.locked = false := by simpa using hl
  refine ⟨hl', not_not.mp ha, hmle, ⟨t, ht, rfl⟩, ?_, ?_, rfl, rfl, rfl, rfl, rfl⟩
  · simp [updateMap_self]
  · intro b hb
    simp [updateMap_ne _ _ _ hb]

theorem spendCredits_inv {s s' : ArcadeState} {caller : Address} {amount : Nat}
    {evs : List Event}
    (h : spendCredits s caller amount = .ok (s', evs)) :
    s.locked = false ∧ 0 < amount ∧ amount ≤ s.userCredits caller ∧
    s'.userCredits caller = s.userCredits caller - amount ∧
    (∀ b, b ≠ caller → s'.userCredits b = s.userCredits b) ∧
    s'.token = s.token ∧ s'.selfAddr = s.selfAddr ∧ s'.bullToken = s.bullToken ∧
    s'.owner = s.owner ∧ s'.locked = false ∧
    evs = [.CreditsSpent caller amount] := by
  simp only [spendCredits] at h
  split at h
  · cases h
  next hl =>
  split at h
  · cases h
  next ha =>
  split at h
  · cases h
  next hc =>
  split at h
  · cases h
  next nb hnb =>
  obtain ⟨hle, hnbeq⟩ := usub_ok hnb
  subst hnbeq
  rw [Except.ok.injEq, Prod.mk.injEq] at h
  obtain ⟨h1, h2⟩ := h
  subst h1
  subst h2
  have hl' : s.locked = false := by simpa using hl
  refine ⟨hl', not_not.mp ha, not_not.mp hc, ?_, ?_, rfl, rfl, rfl, rfl, rfl, rfl⟩
  · simp [updateMap_self]
  · intro b hb
    simp [updateMap_ne _ _ _ hb]

theorem awardWinnings_inv {s s' : ArcadeState} {caller player : Address}
    {amount : Nat} {evs : List Event}
    (h : awardWinnings s caller player amount = .ok (s', evs)) :
    caller = s.owner ∧ player ≠ 0 ∧ 0 < amount ∧
    s.userCredits player + amount ≤ UINT_MAX ∧
    s'.userCredits player = s.userCredits player + amount ∧
    (∀ b, b ≠ player → s'.userCredits b = s.userCredits b) ∧
    s'.token = s.token ∧ s'.selfAddr = s.selfAddr ∧ s'.bullToken = s.bullToken ∧
    s'.owner = s.owner ∧ s'.locked = s.locked ∧
    evs = [.WinningsAwarded player amount] := by
  simp only [awardWinnings] at h
  split at h
  · cases h
  next how =>
  split at h
  · cases h
  next hp =>
  split at h
  · cases h
  next ha =>
  split at h
  · cases h
  next nb hadd =>
  obtain ⟨hale, haeq⟩ := uadd_ok hadd
  subst haeq
  rw [Except.ok.injEq, Prod.mk.injEq] at h
  obtain ⟨h1, h2⟩ := h
  subst h1
  subst h2
  refine ⟨not_not.mp how, hp, not_not.mp ha, hale, ?_, ?_, rfl, rfl, rfl, rfl, rfl, rfl⟩
  · simp [updateMap_self]
  · intro b hb
    simp [updateMap_ne _ _ _ hb]

theorem withdraw_inv {s s' : ArcadeState} {caller : Address} {creditAmount : Nat}
    {evs : List Event}
    (h : withdraw s caller creditAmount = .ok (s', evs)) :
    s.locked = false ∧ 0 < creditAmount ∧
    creditAmount ≤ s.userCredits caller ∧
    0 < creditAmount / CREDIT_RATE ∧
    creditAmount / CREDIT_RATE ≤ s.token.balances s.selfAddr ∧
    (∃ t', s.token.doTransfer s.selfAddr caller (creditAmount / CREDIT_RATE) = some t' ∧
      s'.token = t') ∧
    s'.userCredits caller = s.userCredits caller - creditAmount ∧
    (∀ b, b ≠ caller → s'.userCredits b = s.userCredits b) ∧
    s'.selfAddr = s.selfAddr ∧ s'.bullToken = s.bullToken ∧
    s'.owner = s.owner ∧ s'.locked = false ∧
    evs = [.Withdrawal caller creditAmount (creditAmount / CREDIT_RATE)] := by
  simp only [withdraw, withdrawGen, tokenBalanceOf, ERC20.balanceOf] at h
  split at h
  · cases h
  next hl =>
  split at h
  · cases h
  next ha =>
  split at h
  · cases h
  next hc =>
  split at h
  · cases h
  next hb =>
  split at h
  · cases h
  next hr =>
  split at h
  · cases h
  next nb hnb =>
  obtain ⟨hle, hnbeq⟩ := usub_ok hnb
  subst hnbeq
  split at h
  · cases h
  next s3 ht =>
  obtain ⟨t, htd, hs3⟩ := tokenTransfer_inv ht
  subst hs3
  rw [Except.ok.injEq, Prod.mk.injEq] at h
  obtain ⟨h1, h2⟩ := h
  subst h1
  subst h2
  have hl' : s.locked = false := by simpa using hl
  refine ⟨hl', not_not.mp ha, not_not.mp hc, not_not.mp hb, not_not.mp hr,
    ⟨t, htd, rfl⟩, ?_, ?_, rfl, rfl, rfl, rfl, rfl⟩
  · simp [updateMap_self]
  · intro b hb'
    simp [updateMap_ne _ _ _ hb']


/-! ## Success-path characterisations -/

theorem withdrawGen_eq (extTransfer : ArcadeState → Address → Nat → Option ArcadeState)
    (extBalanceOf : ArcadeState → Address → Nat)
    (s : ArcadeState) (caller : Address) (creditAmount : Nat)
    (hl : s.locked = false) (ha : 0 < creditAmount)
    (hc : creditAmount ≤ s.userCredits caller)
    (hb : 0 < creditAmount / CREDIT_RATE)
    (hr : creditAmount / CREDIT_RATE ≤ extBalanceOf { s with locked := true } s.selfAddr) :
    withdrawGen extTransfer extBalanceOf s caller creditAmount =
      match extTransfer
          { s with locked := true,
                   userCredits := updateMap s.userCredits caller
                     (s.userCredits caller - creditAmount) }
          caller (creditAmount / CREDIT_RATE) with
      | none => .error .TransferFailed
      | some s3 => .ok ({ s3 with locked := false },
          [.Withdrawal caller creditAmount (creditAmount / CREDIT_RATE)]) := by
  simp only [withdrawGen, hl, Bool.false_eq_true, if_false,
    if_neg (not_not_intro ha), if_neg (not_not_intro hc), if_neg (not_not_intro hb),
    if_neg (not_not_intro hr), usub_of_le hc]

theorem deposit_ok (s : ArcadeState) (caller : Address) (d : Nat)
    (hl : s.locked = false) (hd : 0 < d)
    (hc0 : caller ≠ 0) (hs0 : s.selfAddr ≠ 0)
    (hbal : d ≤ s.token.balances caller)
    (hal : d ≤ s.token.allowances caller s.selfAddr)
    (hov : d * CREDIT_RATE ≤ UINT_MAX)
    (hov2 : s.userCredits caller + d * CREDIT_RATE ≤ UINT_MAX) :
    ∃ s', deposit s caller d = .ok (s', [.Deposit caller d (d * CREDIT_RATE)]) := by
  obtain ⟨t, ht⟩ :=
    ERC20.transferFrom_some hc0 hs0 hbal hal
  simp only [deposit, hl, Bool.false_eq_true, if_false, if_neg (not_not_intro hd),
    ht, umul_of_le hov, uadd_of_le hov2]
  exact ⟨_, rfl⟩

theorem withdraw_ok (s : ArcadeState) (caller : Address) (amt : Nat)
    (hl : s.locked = false)
    (hc : amt ≤ s.userCredits caller)
    (hb : 0 < amt / CREDIT_RATE)
    (hr : amt / CREDIT_RATE ≤ s.token.balances s.selfAddr)
    (hc0 : caller ≠ 0) (hs0 : s.selfAddr ≠ 0) :
    ∃ s', withdraw s caller amt = .ok (s', [.Withdrawal caller amt (amt / CREDIT_RATE)]) := by
  have ha : 0 < amt := lt_of_lt_of_le hb (Nat.div_le_self amt CREDIT_RATE)
  obtain ⟨t, htd⟩ :=
    ERC20.doTransfer_some hs0 hc0 hr
  rw [withdraw, withdrawGen_eq tokenTransfer tokenBalanceOf s caller amt hl ha hc hb hr]
  simp only [tokenTransfer, htd]
  exact ⟨_, rfl⟩


/-! ## Claim theorems -/

/-- C1: for every caller with enough credits, a successful
`withdraw(creditAmount)` debits the full requested `creditAmount` from the
credit balance of the caller (not a value re-derived from the token amount),
transfers exactly `creditAmount / 100` (floor) token units to the caller, and
the amount debited decomposes as `CREDIT_RATE` times the delivered token
amount plus the forfeited remainder below `CREDIT_RATE`. -/
theorem C1_withdraw_debits_full_and_pays_floor
    (s s' : ArcadeState) (caller : Address) (creditAmount : Nat) (evs : List Event)
    (hne : caller ≠ s.selfAddr)
    (h : withdraw s caller creditAmount = .ok (s', evs)) :
    0 < creditAmount ∧ creditAmount ≤ s.userCredits caller ∧
    s'.userCredits caller = s.userCredits caller - creditAmount ∧
    s.userCredits caller - s'.userCredits caller
      = CREDIT_RATE * (creditAmount / CREDIT_RATE) + creditAmount % CREDIT_RATE ∧
    creditAmount % CREDIT_RATE < CREDIT_RATE ∧
    s'.token.balances caller = s.token.balances caller + creditAmount / CREDIT_RATE ∧
    evs = [.Withdrawal caller creditAmount (creditAmount / CREDIT_RATE)] := by
  obtain ⟨hl, ha, hc, hb, hr, ⟨t, htd, htk⟩, huc, hframe, _, _, _, _, hevs⟩ :=
    withdraw_inv h
  have hd := ERC20.doTransfer_inv htd
  refine ⟨ha, hc, huc, ?_, ?_, ?_, hevs⟩
  · rw [huc]
    have hdm := Nat.div_add_mod creditAmount CREDIT_RATE
    omega
  · exact Nat.mod_lt _ (by norm_num [CREDIT_RATE])
  · rw [htk]
    exact (hd.2.2.2.2.2 (Ne.symm hne)).2

/-- C1 witness: in the concrete deployment `W0`, account 1 withdraws 250
credits, is debited all 250, and receives 2 BULL. -/
theorem C1_witness :
    ∃ s' evs, withdraw W0 1 250 = .ok (s', evs) ∧
      s'.userCredits 1 = W0.userCredits 1 - 250 ∧
      s'.token.balances 1 = W0.token.balances 1 + 250 / CREDIT_RATE := by
  have h : withdraw W0 1 250 =
      .ok (execState (withdraw W0 1 250) W0, [.Withdrawal 1 250 2]) := rfl
  have hm := C1_withdraw_debits_full_and_pays_floor W0 _ 1 250 _ (by decide) h
  exact ⟨_, _, h, hm.2.2.1, hm.2.2.2.2.2.1⟩

/-- C2: if the external transfer invoked by `withdraw` reports failure, the
whole operation aborts with `TransferFailed`, and the state any subsequent
operation observes is the unchanged pre-state: the balance debit performed
before the transfer is rolled back. -/
theorem C2_withdraw_transfer_failure_rolls_back
    (extTransfer : ArcadeState → Address → Nat → Option ArcadeState)
    (extBalanceOf : ArcadeState → Address → Nat)
    (s : ArcadeState) (caller : Address) (creditAmount : Nat)
    (hl : s.locked = false) (ha : 0 < creditAmount)
    (hc : creditAmount ≤ s.userCredits caller)
    (hb : 0 < creditAmount / CREDIT_RATE)
    (hr : creditAmount / CREDIT_RATE ≤ extBalanceOf { s with locked := true } s.selfAddr)
    (hfail : ∀ s2 n, extTransfer s2 caller n = none) :
    withdrawGen extTransfer extBalanceOf s caller creditAmount
      = .error .TransferFailed ∧
    execState (withdrawGen extTransfer extBalanceOf s caller creditAmount) s = s := by
  rw [withdrawGen_eq extTransfer extBalanceOf s caller creditAmount hl ha hc hb hr,
    hfail]
  exact ⟨rfl, rfl⟩

/-- C2 witness: the concrete deployment `W0` with an always-failing external
transfer capability. -/
theorem C2_witness :
    withdrawGen failTransfer tokenBalanceOf W0 1 250 = .error .TransferFailed ∧
    execState (withdrawGen failTransfer tokenBalanceOf W0 1 250) W0 = W0 :=
  C2_withdraw_transfer_failure_rolls_back failTransfer tokenBalanceOf W0 1 250
    rfl (by decide) (by decide) (by decide) (by decide) (fun _ _ => rfl)

/-- C3: whenever `withdraw` reaches its external transfer call, that call is
invoked on an intermediate state in which the full `creditAmount` has already
been debited from the caller (and the reentrancy guard is held): effects
precede interactions, for every possible behaviour of the external code. -/
theorem C3_debit_happens_before_external_transfer
    (extTransfer : ArcadeState → Address → Nat → Option ArcadeState)
    (extBalanceOf : ArcadeState → Address → Nat)
    (s : ArcadeState) (caller : Address) (creditAmount : Nat)
    (hl : s.locked = false) (ha : 0 < creditAmount)
    (hc : creditAmount ≤ s.userCredits caller)
    (hb : 0 < creditAmount / CREDIT_RATE)
    (hr : creditAmount / CREDIT_RATE ≤ extBalanceOf { s with locked := true } s.selfAddr) :
    ∃ s2, s2.userCredits caller + creditAmount = s.userCredits caller ∧
      s2.locked = true ∧
      withdrawGen extTransfer extBalanceOf s caller creditAmount =
        match extTransfer s2 caller (creditAmount / CREDIT_RATE) with
        | none => .error .TransferFailed
        | some s3 => .ok ({ s3 with locked := false },
            [.Withdrawal caller creditAmount (creditAmount / CREDIT_RATE)]) := by
  refine ⟨_, ?_, rfl,
    withdrawGen_eq extTransfer extBalanceOf s caller creditAmount hl ha hc hb hr⟩
  simp only [updateMap_self]
  omega

/-- C3 witness: concrete instance on `W0` with the concrete token transfer. -/
theorem C3_witness :
    ∃ s2, s2.userCredits 1 + 250 = W0.userCredits 1 ∧
      s2.locked = true ∧
      withdrawGen tokenTransfer tokenBalanceOf W0 1 250 =
        match tokenTransfer s2 1 (250 / CREDIT_RATE) with
        | none => .error .TransferFailed
        | some s3 => .ok ({ s3 with locked := false },
            [.Withdrawal 1 250 (250 / CREDIT_RATE)]) :=
  C3_debit_happens_before_external_transfer tokenTransfer tokenBalanceOf W0 1 250
    rfl (by decide) (by decide) (by decide) (by decide)

/-- C4: a successful `deposit(bullAmount)` (the external `transferFrom`
reported success) has a positive amount, credits exactly
`bullAmount * CREDIT_RATE` to the caller, increases the token custody of the
arcade contract by exactly `bullAmount`, and emits the `Deposit` event. -/
theorem C4_deposit_exact
    (s s' : ArcadeState) (caller : Address) (bullAmount : Nat) (evs : List Event)
    (hne : caller ≠ s.selfAddr)
    (h : deposit s caller bullAmount = .ok (s', evs)) :
    0 < bullAmount ∧
    s'.userCredits caller = s.userCredits caller + bullAmount * CREDIT_RATE ∧
    s'.token.balanceOf s.selfAddr = s.token.balanceOf s.selfAddr + bullAmount ∧
    evs = [.Deposit caller bullAmount (bullAmount * CREDIT_RATE)] := by
  obtain ⟨hl, ha, hov, ⟨t, ht, htk⟩, huc, _, _, _, _, _, hevs⟩ := deposit_inv h
  have hd := ERC20.transferFrom_inv ht
  refine ⟨ha, huc, ?_, hevs⟩
  rw [htk]
  simpa [ERC20.balanceOf] using (hd.2.2.2.2 hne).2

/-- C4 witness: account 1 deposits 2 BULL into `W0` and is credited 200
credits while the contract custody grows by 2. -/
theorem C4_witness :
    ∃ s' evs, deposit W0 1 2 = .ok (s', evs) ∧
      s'.userCredits 1 = W0.userCredits 1 + 2 * CREDIT_RATE ∧
      s'.token.balanceOf W0.selfAddr = W0.token.balanceOf W0.selfAddr + 2 := by
  have h : deposit W0 1 2 =
      .ok (execState (deposit W0 1 2) W0, [.Deposit 1 2 200]) := rfl
  have hm := C4_deposit_exact W0 _ 1 2 _ (by decide) h
  exact ⟨_, _, h, hm.2.1, hm.2.2.1⟩


/-- C5: starting from a zero credit balance, `deposit(d)` followed by
`withdraw(d * 100)` returns the credit balance of the caller to exactly zero
and returns both the custody of the contract and the token balance of the
caller to their pre-deposit levels: no net credit or asset drift. -/
theorem C5_round_trip (s : ArcadeState) (caller : Address) (d : Nat)
    (hl : s.locked = false) (hd : 0 < d)
    (hz : s.userCredits caller = 0)
    (hc0 : caller ≠ 0) (hs0 : s.selfAddr ≠ 0) (hcs : caller ≠ s.selfAddr)
    (hbal : d ≤ s.token.balances caller)
    (hal : d ≤ s.token.allowances caller s.selfAddr)
    (hov : d * CREDIT_RATE ≤ UINT_MAX) :
    ∃ s1 s2 ev1 ev2,
      deposit s caller d = .ok (s1, ev1) ∧
      withdraw s1 caller (d * CREDIT_RATE) = .ok (s2, ev2) ∧
      s2.userCredits caller = 0 ∧
      s2.token.balances s.selfAddr = s.token.balances s.selfAddr ∧
      s2.token.balances caller = s.token.balances caller := by
  have hdiv : d * CREDIT_RATE / CREDIT_RATE = d :=
    Nat.mul_div_cancel d (by norm_num [CREDIT_RATE])
  obtain ⟨s1, h1⟩ := deposit_ok s caller d hl hd hc0 hs0 hbal hal hov
    (by rw [hz]; simpa using hov)
  obtain ⟨hl1, -, -, ⟨t, ht, htk⟩, huc1, -, hsa1, -, -, hlk1, -⟩ := deposit_inv h1
  have hdt := ERC20.transferFrom_inv ht
  have htb_self : s1.token.balances s.selfAddr = s.token.balances s.selfAddr + d := by
    rw [htk]
    exact (hdt.2.2.2.2 hcs).2
  have htb_caller : s1.token.balances caller = s.token.balances caller - d := by
    rw [htk]
    exact (hdt.2.2.2.2 hcs).1
  obtain ⟨s2, h2⟩ := withdraw_ok s1 caller (d * CREDIT_RATE)
    hlk1
    (by rw [huc1, hz]; omega)
    (by rw [hdiv]; exact hd)
    (by simp only [hdiv, hsa1]; omega)
    hc0
    (by rw [hsa1]; exact hs0)
  obtain ⟨-, -, -, -, -, ⟨t2, htd2, htk2⟩, huc2, -, -, -, -, -, -⟩ := withdraw_inv h2
  rw [hsa1, hdiv] at htd2
  have hdt2 := ERC20.doTransfer_inv htd2
  have hfe := hdt2.2.2.2.2.2 (Ne.symm hcs)
  refine ⟨s1, s2, _, _, h1, h2, ?_, ?_, ?_⟩
  · rw [huc2, huc1, hz]
    omega
  · rw [htk2, hfe.1, htb_self]
    omega
  · rw [htk2, hfe.2, htb_caller]
    omega

/-- C5 witness: account 4 starts with zero credits in `W0`, deposits 3 BULL
and withdraws 300 credits, ending with zero credits and its original token
balance, while the contract custody is restored. -/
theorem C5_witness :
    ∃ s1 s2 ev1 ev2,
      deposit W0 4 3 = .ok (s1, ev1) ∧
      withdraw s1 4 (3 * CREDIT_RATE) = .ok (s2, ev2) ∧
      s2.userCredits 4 = 0 ∧
      s2.token.balances W0.selfAddr = W0.token.balances W0.selfAddr ∧
      s2.token.balances 4 = W0.token.balances 4 :=
  C5_round_trip W0 4 3 rfl (by decide) (by decide) (by decide) (by decide)
    (by decide) (by decide) (by decide) (by decide)

/-- C6 counterexample: with the guard already held, `deposit(0)` fails with
`ReentrancyDetected`, not with `InvalidAmount` as the claim states: the
`nonReentrant` modifier runs before the argument validation in the body. -/
theorem C6_counterexample :
    deposit WL 1 0 = .error .ReentrancyDetected ∧
    deposit WL 1 0 ≠ .error .InvalidAmount := by
  refine ⟨rfl, ?_⟩
  intro hcontra
  rw [show deposit WL 1 0 = .error .ReentrancyDetected from rfl] at hcontra
  exact absurd (Except.error.inj hcontra) (by decide)

/-- C6 (amended): in `deposit`, `spendCredits` and `withdraw` the reentrancy
guard is checked and acquired before any argument or balance validation:
while the guard is held every call fails with `ReentrancyDetected` whatever
its argument, and with the guard idle a zero amount fails with
`InvalidAmount`. -/
theorem C6_guard_checked_before_validation (s : ArcadeState) (caller : Address)
    (a : Nat) :
    (s.locked = true →
      deposit s caller a = .error .ReentrancyDetected ∧
      spendCredits s caller a = .error .ReentrancyDetected ∧
      withdraw s caller a = .error .ReentrancyDetected) ∧
    (s.locked = false → a = 0 →
      deposit s caller a = .error .InvalidAmount ∧
      spendCredits s caller a = .error .InvalidAmount ∧
      withdraw s caller a = .error .InvalidAmount) := by
  constructor
  · intro hl
    refine ⟨?_, ?_, ?_⟩ <;>
      simp [deposit, spendCredits, withdraw, withdrawGen, hl]
  · intro hl ha
    subst ha
    refine ⟨?_, ?_, ?_⟩ <;>
      simp [deposit, spendCredits, withdraw, withdrawGen, hl]

/-- C6 witness: concrete instances of both branches of the amended claim. -/
theorem C6_witness :
    deposit WL 1 0 = .error .ReentrancyDetected ∧
    deposit W0 1 0 = .error .InvalidAmount :=
  ⟨((C6_guard_checked_before_validation WL 1 0).1 rfl).1,
   ((C6_guard_checked_before_validation W0 1 0).2 rfl rfl).1⟩

/-- C7: a debit whose amount exceeds the balance of the account aborts with
`InsufficientCredits` and leaves the state unchanged, and a successful debit
subtracts exactly (`+ amount` recovers the old balance, so the checked
subtraction never wraps); balances are carried in `Nat`, so they are never
negative. -/
theorem C7_debit_never_underflows (s : ArcadeState) (caller : Address)
    (amount : Nat) :
    (s.locked = false → s.userCredits caller < amount →
      spendCredits s caller amount = .error .InsufficientCredits ∧
      withdraw s caller amount = .error .InsufficientCredits ∧
      execState (spendCredits s caller amount) s = s ∧
      execState (withdraw s caller amount) s = s) ∧
    (∀ s' evs, spendCredits s caller amount = .ok (s', evs) →
      amount ≤ s.userCredits caller ∧
      s'.userCredits caller + amount = s.userCredits caller) ∧
    (∀ s' evs, withdraw s caller amount = .ok (s', evs) →
      amount ≤ s.userCredits caller ∧
      s'.userCredits caller + amount = s.userCredits caller) := by
  refine ⟨?_, ?_, ?_⟩
  · intro hl hlt
    have ha : 0 < amount := by omega
    have h1 : spendCredits s caller amount = .error .InsufficientCredits := by
      simp only [spendCredits, hl, Bool.false_eq_true, if_false,
        if_neg (not_not_intro ha), if_pos (not_le.mpr hlt)]
    have h2 : withdraw s caller amount = .error .InsufficientCredits := by
      simp only [withdraw, withdrawGen, hl, Bool.false_eq_true, if_false,
        if_neg (not_not_intro ha), if_pos (not_le.mpr hlt)]
    exact ⟨h1, h2, by rw [h1]; rfl, by rw [h2]; rfl⟩
  · intro s' evs h
    obtain ⟨-, -, hle, huc, -⟩ := spendCredits_inv h
    exact ⟨hle, by rw [huc]; omega⟩
  · intro s' evs h
    obtain ⟨-, -, hle, -, -, -, huc, -⟩ := withdraw_inv h
    exact ⟨hle, by rw [huc]; omega⟩

/-- C7 witness: account 1 holds 250 credits in `W0`; spending or withdrawing
300 aborts with `InsufficientCredits`. -/
theorem C7_witness :
    spendCredits W0 1 300 = .error .InsufficientCredits ∧
    withdraw W0 1 300 = .error .InsufficientCredits := by
  have hm := (C7_debit_never_underflows W0 1 300).1 rfl (by decide)
  exact ⟨hm.1, hm.2.1⟩

/-- C8: `awardWinnings` by a non-owner fails with `AccessDenied` and changes
nothing; by the owner, with a non-null player and a positive amount, it
credits exactly `amount` to the player and emits `WinningsAwarded`. -/
theorem C8_award_owner_only (s : ArcadeState) (caller player : Address)
    (amount : Nat) :
    (caller ≠ s.owner →
      awardWinnings s caller player amount = .error .AccessDenied ∧
      execState (awardWinnings s caller player amount) s = s) ∧
    (caller = s.owner → player ≠ 0 → 0 < amount →
      s.userCredits player + amount ≤ UINT_MAX →
      ∃ s', awardWinnings s caller player amount
          = .ok (s', [.WinningsAwarded player amount]) ∧
        s'.userCredits player = s.userCredits player + amount) := by
  constructor
  · intro hne
    have h1 : awardWinnings s caller player amount = .error .AccessDenied := by
      simp only [awardWinnings, if_pos hne]
    exact ⟨h1, by rw [h1]; rfl⟩
  · intro how hp ha hov
    simp only [awardWinnings, if_neg (not_not_intro how), if_neg hp,
      if_neg (not_not_intro ha), uadd_of_le hov]
    exact ⟨_, rfl, by simp [updateMap_self]⟩

/-- C8 witness: account 1 (not the operator) is denied; the operator
(account 3) awards 500 credits to account 1, raising it from 250 to 750. -/
theorem C8_witness :
    awardWinnings W0 1 1 500 = .error .AccessDenied ∧
    ∃ s', awardWinnings W0 3 1 500 = .ok (s', [.WinningsAwarded 1 500]) ∧
      s'.userCredits 1 = W0.userCredits 1 + 500 :=
  ⟨((C8_award_owner_only W0 1 1 500).1 (by decide)).1,
   (C8_award_owner_only W0 3 1 500).2 rfl (by decide) (by decide) (by decide)⟩

/-- C9: a withdrawal of fewer credits than `CREDIT_RATE` (but positive, and
covered by the balance of the caller) converts to zero token units and fails
with `TooSmall`, leaving the whole state (credits and custody) unchanged. -/
theorem C9_withdraw_below_rate_toosmall (s : ArcadeState) (caller : Address)
    (amount : Nat) (hl : s.locked = false) (h0 : 0 < amount)
    (hlt : amount < CREDIT_RATE) (hc : amount ≤ s.userCredits caller) :
    withdraw s caller amount = .error .TooSmall ∧
    execState (withdraw s caller amount) s = s := by
  have hdiv : amount / CREDIT_RATE = 0 := Nat.div_eq_of_lt hlt
  have h1 : withdraw s caller amount = .error .TooSmall := by
    simp [withdraw, withdrawGen, hl, hdiv, h0.ne', not_lt.mpr hc]
  exact ⟨h1, by rw [h1]; rfl⟩

/-- C9 witness: `withdraw(50)` by account 1 (250 credits) fails with
`TooSmall`. -/
theorem C9_witness :
    withdraw W0 1 50 = .error .TooSmall ∧
    execState (withdraw W0 1 50) W0 = W0 :=
  C9_withdraw_below_rate_toosmall W0 1 50 rfl (by decide) (by decide) (by decide)

/-- C10: frame conditions: each operation leaves the credit balance of every
account other than the affected one unchanged, never modifies the stored
token reference, and the credit rate is the fixed constant 100. -/
theorem C10_frame_other_accounts (s s' : ArcadeState) (caller player b : Address)
    (a : Nat) (evs : List Event) :
    CREDIT_RATE = 100 ∧
    (deposit s caller a = .ok (s', evs) → b ≠ caller →
      s'.userCredits b = s.userCredits b ∧ s'.bullToken = s.bullToken) ∧
    (spendCredits s caller a = .ok (s', evs) → b ≠ caller →
      s'.userCredits b = s.userCredits b ∧ s'.bullToken = s.bullToken) ∧
    (withdraw s caller a = .ok (s', evs) → b ≠ caller →
      s'.userCredits b = s.userCredits b ∧ s'.bullToken = s.bullToken) ∧
    (awardWinnings s caller player a = .ok (s', evs) → b ≠ player →
      s'.userCredits b = s.userCredits b ∧ s'.bullToken = s.bullToken) := by
  refine ⟨rfl, ?_, ?_, ?_, ?_⟩
  · intro h hb
    obtain ⟨-, -, -, -, -, hframe, -, hbt, -⟩ := deposit_inv h
    exact ⟨hframe b hb, hbt⟩
  · intro h hb
    obtain ⟨-, -, -, -, hframe, -, -, hbt, -⟩ := spendCredits_inv h
    exact ⟨hframe b hb, hbt⟩
  · intro h hb
    obtain ⟨-, -, -, -, -, -, -, hframe, -, hbt, -⟩ := withdraw_inv h
    exact ⟨hframe b hb, hbt⟩
  · intro h hb
    obtain ⟨-, -, -, -, -, hframe, -, -, hbt, -⟩ := awardWinnings_inv h
    exact ⟨hframe b hb, hbt⟩

/-- C10 witness: after account 1 deposits 2 BULL into `W0`, the credit
balance of account 5 and the stored token reference are unchanged. -/
theorem C10_witness :
    ∃ s', deposit W0 1 2 = .ok (s', [.Deposit 1 2 200]) ∧
      s'.userCredits 5 = W0.userCredits 5 ∧ s'.bullToken = W0.bullToken := by
  have h : deposit W0 1 2 =
      .ok (execState (deposit W0 1 2) W0, [.Deposit 1 2 200]) := rfl
  have hm := (C10_frame_other_accounts W0 _ 1 1 5 2 _).2.1 h (by decide)
  exact ⟨_, h, hm.1, hm.2⟩

end Arcade
